import Mathlib

/-!
Shallow embedding of the checkpoint-synchronization subsystem
(`src/checkpointsync.cpp`) of pearcoin.

Block hashes (`uint256`) are modelled as `Nat`, with `0` playing the role of
the null hash `uint256()`.  The global block index `mapBlockIndex` is an
association list from hash to `CBlockIndex`; the `pprev` pointer of a
`CBlockIndex` is stored as the parent's hash (`none` for the genesis block).
The process-wide globals (`hashSyncCheckpoint`, `hashPendingCheckpoint`,
`checkpointMessage`, `checkpointMessagePending`, `hashInvalidCheckpoint`,
`strCheckpointWarning`) are gathered in a `CheckpointState` record and each
operation is written in explicit state-passing style.  The block-tree database
(`pblocktree`) is a `TxDB` record whose `writeOk`/`syncOk` flags model whether
the write and the durable commit (`Sync`) succeed.  Cryptographic operations
are abstracted by boolean outcomes (whether decoding / validity / signing /
verification succeed), which is all the control flow of the source inspects.
-/

/-- Stand-in for `uint256`; `0` is the null hash `uint256()`. -/
abbrev Hash := Nat

/-- A peer (`CNode*` identity). -/
abbrev Peer := Nat

/-- A node of the block tree: `GetBlockHash()`, `nHeight`, and `pprev`
(stored as the parent's hash, `none` for the genesis block). -/
structure CBlockIndex where
  hash : Hash
  nHeight : Nat
  pprev : Option Hash
deriving DecidableEq, Repr

/-- `mapBlockIndex`: association list from block hash to block index entry. -/
abbrev BlockMap := List (Hash × CBlockIndex)

/-- Lookup in `mapBlockIndex` (first matching key wins). -/
def mfind (m : BlockMap) (h : Hash) : Option CBlockIndex :=
  match m with
  | [] => none
  | (k, b) :: rest => if k = h then some b else mfind rest h

/-- The trace-back loop of `ValidateSyncCheckpoint`:
`while (pindex->nHeight > target) if (!(pindex = pindex->pprev)) return error;`.
A null `pprev` (and, in this embedding, a dangling parent hash) is the
"block index structure failure" case, returned as `none`.  The loop in the
source is unbounded; here it carries fuel, and every caller passes the
walker's own height, which suffices for any well-formed block tree since the
height strictly decreases at each step. -/
def traceBack (m : BlockMap) (target : Nat) : Nat → CBlockIndex → Option CBlockIndex
  | 0, pindex => if pindex.nHeight > target then none else some pindex
  | fuel + 1, pindex =>
    if pindex.nHeight > target then
      match pindex.pprev with
      | none => none
      | some hp =>
        match mfind m hp with
        | none => none
        | some p => traceBack m target fuel p
    else some pindex

/-- A checkpoint message (`CSyncCheckpoint`): the checkpoint hash carried in
`vchMsg`, and whether `CheckSignature()` (verification of `vchSig` against the
network master public key) succeeds on it. -/
structure CSyncCheckpoint where
  hashCheckpoint : Hash
  sigValid : Bool
deriving DecidableEq, Repr

/-- The process-wide checkpoint globals of the source file.  A `none` message
is a null (`SetNull`) message; hash `0` is the null hash. -/
structure CheckpointState where
  hashSyncCheckpoint : Hash
  hashPendingCheckpoint : Hash
  checkpointMessage : Option CSyncCheckpoint
  checkpointMessagePending : Option CSyncCheckpoint
  hashInvalidCheckpoint : Hash
  strCheckpointWarning : String
deriving DecidableEq, Repr

/-- Outcome of `ValidateSyncCheckpoint`, one constructor per return point of
the source: the two missing-block-index errors, the two `pprev`-null
structure-failure errors (merged: same return), the conflicting-checkpoint
error (which records `hashInvalidCheckpoint`), the ignore-older return, and
the accepting return. -/
inductive ValidateResult where
  | errMissingCurrent
  | errMissingRecv
  | brokenTree
  | conflict
  | ignoreOlder
  | accept
deriving DecidableEq, Repr

/-- The `bool` actually returned by `ValidateSyncCheckpoint` for each
outcome: only the accepting return yields `true`. -/
def ValidateResult.toBool : ValidateResult → Bool
  | .accept => true
  | _ => false

/-- `ValidateSyncCheckpoint(hashCheckpoint)`: reads the current checkpoint
from the state, traces ancestor/descendant relationship in the block tree,
and on a conflict assigns `hashInvalidCheckpoint := hashCheckpoint`. -/
def ValidateSyncCheckpoint (m : BlockMap) (st : CheckpointState)
    (hashCheckpoint : Hash) : ValidateResult × CheckpointState :=
  match mfind m st.hashSyncCheckpoint with
  | none => (.errMissingCurrent, st)
  | some pindexSyncCheckpoint =>
    match mfind m hashCheckpoint with
    | none => (.errMissingRecv, st)
    | some pindexCheckpointRecv =>
      if pindexCheckpointRecv.nHeight ≤ pindexSyncCheckpoint.nHeight then
        -- received an older checkpoint: trace back from the current one
        match traceBack m pindexCheckpointRecv.nHeight
            pindexSyncCheckpoint.nHeight pindexSyncCheckpoint with
        | none => (.brokenTree, st)
        | some pindex =>
          if pindex.hash ≠ hashCheckpoint then
            (.conflict, { st with hashInvalidCheckpoint := hashCheckpoint })
          else
            (.ignoreOlder, st)
      else
        -- received checkpoint should be a descendant: trace back from it
        match traceBack m pindexSyncCheckpoint.nHeight
            pindexCheckpointRecv.nHeight pindexCheckpointRecv with
        | none => (.brokenTree, st)
        | some pindex =>
          if pindex.hash ≠ st.hashSyncCheckpoint then
            (.conflict, { st with hashInvalidCheckpoint := hashCheckpoint })
          else
            (.accept, st)

/-- The block-tree database (`pblocktree`) as far as this file uses it:
the stored sync-checkpoint record, and whether `WriteSyncCheckpoint` /
`Sync` calls succeed. -/
structure TxDB where
  syncCheckpoint : Option Hash
  writeOk : Bool
  syncOk : Bool
deriving DecidableEq, Repr

/-- `WriteSyncCheckpoint`: write the hash to the db, `Sync()` (commit), and
only then assign the in-memory `hashSyncCheckpoint`.  Either failure returns
`false` without touching the in-memory state. -/
def WriteSyncCheckpoint (db : TxDB) (st : CheckpointState) (hashCheckpoint : Hash) :
    Bool × TxDB × CheckpointState :=
  if db.writeOk = false then
    (false, db, st)
  else
    let db1 : TxDB := { db with syncCheckpoint := some hashCheckpoint }
    if db1.syncOk = false then
      (false, db1, st)
    else
      (true, db1, { st with hashSyncCheckpoint := hashCheckpoint })

/-- The configuration arguments (`gArgs`) this file reads:
`-enforcecheckpoint` (value if set), and whether `-checkpointkey` is set. -/
structure Args where
  enforcecheckpoint : Option Bool
  checkpointkeySet : Bool
deriving DecidableEq, Repr

/-- `gArgs.GetBoolArg(name, default)`: the set value, else the default. -/
def GetBoolArg (v : Option Bool) (dflt : Bool) : Bool :=
  v.getD dflt

/-- `IsSyncCheckpointEnforced()`:
`gArgs.GetBoolArg("-enforcecheckpoint", true) || gArgs.IsArgSet("-checkpointkey")`.
Note the default of the `GetBoolArg` call in the source is `true`. -/
def IsSyncCheckpointEnforced (args : Args) : Bool :=
  GetBoolArg args.enforcecheckpoint true || args.checkpointkeySet

/-- Outcome of `CSyncCheckpoint::ProcessSyncCheckpoint`, one constructor per
return point: signature-check failure, block-unknown (kept as pending),
validation rejection (carrying which validation outcome caused it),
persistence failure, and acceptance. -/
inductive ProcessResult where
  | sigFail
  | pendingStored
  | validateReject (r : ValidateResult)
  | writeFail
  | accepted
deriving DecidableEq, Repr

/-- The `bool` actually returned by `ProcessSyncCheckpoint`. -/
def ProcessResult.toBool : ProcessResult → Bool
  | .accepted => true
  | _ => false

/-- Result record of `ProcessSyncCheckpoint`: returned value, updated
globals, updated db, and the list of network block requests issued to peers
during the call. -/
structure ProcessOut where
  result : ProcessResult
  st : CheckpointState
  db : TxDB
  requests : List (Peer × Hash)
deriving DecidableEq, Repr

/-- `CSyncCheckpoint::ProcessSyncCheckpoint(pfrom)`.  The
`IsSyncCheckpointEnforced && !chainActive.Contains` SetBestChain branch and
the block-request code in the pending branch (`pfrom->PushGetBlocks` /
`AskFor`) are commented out in the source (ppcTODO), so neither has any
effect: in particular no network request is issued on any path, hence
`requests` is `[]` on every return. -/
def ProcessSyncCheckpoint (m : BlockMap) (chain : List Hash) (args : Args)
    (db : TxDB) (st : CheckpointState) (msg : CSyncCheckpoint)
    (pfrom : Option Peer) : ProcessOut :=
  if msg.sigValid = false then
    ⟨.sigFail, st, db, []⟩
  else
    match mfind m msg.hashCheckpoint with
    | none =>
      -- we haven't received the checkpoint chain: keep the checkpoint pending
      ⟨.pendingStored,
        { st with hashPendingCheckpoint := msg.hashCheckpoint,
                  checkpointMessagePending := some msg }, db, []⟩
    | some _ =>
      match ValidateSyncCheckpoint m st msg.hashCheckpoint with
      | (r, st1) =>
        if r = ValidateResult.accept then
          match WriteSyncCheckpoint db st1 msg.hashCheckpoint with
          | (false, db1, st2) => ⟨.writeFail, st2, db1, []⟩
          | (true, db1, st2) =>
            ⟨.accepted,
              { st2 with checkpointMessage := some msg,
                         hashPendingCheckpoint := 0,
                         checkpointMessagePending := none }, db1, []⟩
        else
          ⟨.validateReject r, st1, db, []⟩

/-- `AcceptPendingSyncCheckpoint()`.  The SetBestChain branch is commented
out in the source and has no effect.  (The relay of the accepted message to
connected peers does not touch the checkpoint state or the db.) -/
def AcceptPendingSyncCheckpoint (m : BlockMap) (chain : List Hash) (args : Args)
    (db : TxDB) (st : CheckpointState) : Bool × CheckpointState × TxDB :=
  if st.hashPendingCheckpoint ≠ 0 ∧ (mfind m st.hashPendingCheckpoint).isSome = true then
    match ValidateSyncCheckpoint m st st.hashPendingCheckpoint with
    | (r, st1) =>
      if r = ValidateResult.accept then
        match WriteSyncCheckpoint db st1 st.hashPendingCheckpoint with
        | (false, db1, st2) => (false, st2, db1)
        | (true, db1, st2) =>
          (true, { st2 with hashPendingCheckpoint := 0,
                            checkpointMessage := st2.checkpointMessagePending,
                            checkpointMessagePending := none }, db1)
      else
        (false, { st1 with hashPendingCheckpoint := 0,
                           checkpointMessagePending := none }, db)
  else
    (false, st, db)

/-- The backward walk of `AutoSelectSyncCheckpoint`:
`while (pindex->pprev && pindex->nHeight + depth > tip->nHeight) pindex = pindex->pprev;`.
The source dereferences a non-null `pprev` pointer directly; in this
embedding a dangling parent hash stops the walk (a well-formed block tree
has none).  Fuel as in `traceBack`. -/
def autoSelectLoop (m : BlockMap) (tipHeight : Nat) (depth : Int) :
    Nat → CBlockIndex → CBlockIndex
  | 0, pindex => pindex
  | fuel + 1, pindex =>
    match pindex.pprev with
    | none => pindex
    | some hp =>
      if (pindex.nHeight : Int) + depth > (tipHeight : Int) then
        match mfind m hp with
        | none => pindex
        | some p => autoSelectLoop m tipHeight depth fuel p
      else pindex

/-- `AutoSelectSyncCheckpoint()`: search backward from `chainActive.Tip()`
for a block satisfying the `-checkpointdepth` policy (default `-1`). -/
def AutoSelectSyncCheckpoint (m : BlockMap) (tip : CBlockIndex) (depth : Int) : Hash :=
  (autoSelectLoop m tip.nHeight depth tip.nHeight tip).hash

/-- `ResetSyncCheckpoint()`: `hardened` is
`Checkpoints::GetLatestHardenedCheckpoint()` and `genesis` is
`Params().GetConsensus().hashGenesisBlock`; `chain` is the active chain as
the list of its block hashes (`chainActive.Contains`).  The SetBestChain
branch in the known-but-inactive case is commented out in the source and has
no effect. -/
def ResetSyncCheckpoint (m : BlockMap) (chain : List Hash) (db : TxDB)
    (st : CheckpointState) (hardened genesis : Hash) : Bool × CheckpointState × TxDB :=
  let st1 : CheckpointState :=
    match mfind m hardened with
    | some _ => st
    | none =>
      -- checkpoint block not yet accepted
      { st with hashPendingCheckpoint := hardened,
                checkpointMessagePending := none }
  let target : Hash :=
    match mfind m hardened with
    | some pindex => if pindex.hash ∈ chain then hardened else genesis
    | none => genesis
  match WriteSyncCheckpoint db st1 target with
  | (false, db1, st2) => (false, st2, db1)
  | (true, db1, st2) => (true, st2, db1)

/-- `AskForPendingSyncCheckpoint(pfrom)`: the block requests issued —
`pfrom->AskFor(CInv(MSG_BLOCK, hashPendingCheckpoint))` when `pfrom` is
non-null, a pending checkpoint exists and its block is still unknown. -/
def AskForPendingSyncCheckpoint (m : BlockMap) (st : CheckpointState)
    (pfrom : Option Peer) : List (Peer × Hash) :=
  match pfrom with
  | none => []
  | some p =>
    if st.hashPendingCheckpoint ≠ 0 ∧ mfind m st.hashPendingCheckpoint = none then
      [(p, st.hashPendingCheckpoint)]
    else
      []

/-- The master key material and the outcomes of the cryptographic steps of
`SendSyncCheckpoint`: whether `strMasterPrivKey` is nonempty, whether
`CBitcoinSecret::SetString` decodes it, whether `CKey::IsValid` holds,
whether `CKey::Sign` succeeds, and whether the produced signature verifies
against the network master public key (i.e. whether `CheckSignature` will
succeed on the built message). -/
structure MasterKey where
  privKeySet : Bool
  decodeOk : Bool
  keyValid : Bool
  signOk : Bool
  producesValidSig : Bool
deriving DecidableEq, Repr

/-- Result record of `SendSyncCheckpoint`: returned value, updated globals,
updated db, and whether the checkpoint was relayed to peers. -/
structure SendOut where
  ok : Bool
  st : CheckpointState
  db : TxDB
  relayed : Bool
deriving DecidableEq, Repr

/-- `SendSyncCheckpoint(hashCheckpoint)`: build and sign the message, run it
through the local `ProcessSyncCheckpoint(NULL)` acceptance path, and relay it
to all connected peers only if that succeeded. -/
def SendSyncCheckpoint (m : BlockMap) (chain : List Hash) (args : Args)
    (db : TxDB) (st : CheckpointState) (key : MasterKey)
    (hashCheckpoint : Hash) : SendOut :=
  let checkpoint : CSyncCheckpoint := ⟨hashCheckpoint, key.producesValidSig⟩
  if key.privKeySet = false then
    ⟨false, st, db, false⟩
  else if key.decodeOk = false then
    ⟨false, st, db, false⟩
  else if key.keyValid = false then
    ⟨false, st, db, false⟩
  else if key.signOk = false then
    ⟨false, st, db, false⟩
  else
    let out := ProcessSyncCheckpoint m chain args db st checkpoint none
    if out.result.toBool = false then
      ⟨false, out.st, out.db, false⟩
    else
      ⟨true, out.st, out.db, true⟩

/-! ## Well-formedness of the block tree -/

/-- One entry of `mapBlockIndex` is well-formed: its stored hash is its key,
and its `pprev` is null exactly for the genesis block (height `0`), else it
resolves to a parent one height below. -/
def entryOK (m : BlockMap) (k : Hash) (b : CBlockIndex) : Bool :=
  (b.hash == k) &&
    (match b.pprev with
     | none => b.nHeight == 0
     | some hp =>
       match mfind m hp with
       | none => false
       | some p => b.nHeight == p.nHeight + 1)

/-- The block tree is well-formed: every entry is. -/
def WFb (m : BlockMap) : Bool :=
  m.all fun kb => entryOK m kb.1 kb.2

/-- `b` is an entry of the block tree (resolvable by its own hash). -/
def Entry (m : BlockMap) (b : CBlockIndex) : Prop :=
  mfind m b.hash = some b

instance (m : BlockMap) (b : CBlockIndex) : Decidable (Entry m b) := by
  unfold Entry; infer_instance

/-- `b` lies on the `pprev`-path of `a` (reflexively): the ancestor
relation of the block tree. -/
inductive IsAncestor (m : BlockMap) : CBlockIndex → CBlockIndex → Prop where
  | refl (a : CBlockIndex) : IsAncestor m a a
  | step (a p b : CBlockIndex) (hp : Hash) (hprev : a.pprev = some hp)
      (hfind : mfind m hp = some p) (h : IsAncestor m p b) : IsAncestor m a b

theorem mfind_mem {m : BlockMap} {h : Hash} {b : CBlockIndex}
    (hf : mfind m h = some b) : (h, b) ∈ m := by
  induction m with
  | nil => simp [mfind] at hf
  | cons kb rest ih =>
    obtain ⟨k, b0⟩ := kb
    by_cases hk : k = h
    · subst hk
      simp [mfind] at hf
      subst hf
      exact List.mem_cons_self _ _
    · simp [mfind, hk] at hf
      exact List.mem_cons_of_mem _ (ih hf)

theorem wf_entryOK {m : BlockMap} {h : Hash} {b : CBlockIndex}
    (hwf : WFb m = true) (hf : mfind m h = some b) : entryOK m h b = true := by
  have hmem := mfind_mem hf
  have := List.all_eq_true.mp hwf (h, b) hmem
  exact this

theorem wf_hash {m : BlockMap} {h : Hash} {b : CBlockIndex}
    (hwf : WFb m = true) (hf : mfind m h = some b) : b.hash = h := by
  have := wf_entryOK hwf hf
  unfold entryOK at this
  have := (Bool.and_eq_true _ _).mp this
  simpa using this.1

theorem wf_entry {m : BlockMap} {h : Hash} {b : CBlockIndex}
    (hwf : WFb m = true) (hf : mfind m h = some b) : Entry m b := by
  have hh := wf_hash hwf hf
  unfold Entry
  rw [hh]
  exact hf

theorem wf_root {m : BlockMap} {h : Hash} {b : CBlockIndex}
    (hwf : WFb m = true) (hf : mfind m h = some b) (hp : b.pprev = none) :
    b.nHeight = 0 := by
  have := wf_entryOK hwf hf
  unfold entryOK at this
  have := (Bool.and_eq_true _ _).mp this
  have h2 := this.2
  simp only [hp] at h2
  simpa using h2

theorem wf_prev {m : BlockMap} {h : Hash} {b : CBlockIndex} {hp : Hash}
    (hwf : WFb m = true) (hf : mfind m h = some b) (hprev : b.pprev = some hp) :
    ∃ p, mfind m hp = some p ∧ b.nHeight = p.nHeight + 1 := by
  have := wf_entryOK hwf hf
  unfold entryOK at this
  have := (Bool.and_eq_true _ _).mp this
  have h2 := this.2
  cases hres : mfind m hp with
  | none =>
    simp only [hprev, hres] at h2
    exact (Bool.false_ne_true h2).elim
  | some p =>
    simp only [hprev, hres] at h2
    exact ⟨p, rfl, by simpa using h2⟩

/-- Two entries with the same stored hash coincide. -/
theorem entry_hash_inj {m : BlockMap} {a b : CBlockIndex}
    (ha : Entry m a) (hb : Entry m b) (h : a.hash = b.hash) : a = b := by
  unfold Entry at ha hb
  rw [h] at ha
  rw [ha] at hb
  exact (Option.some_inj.mp hb)

theorem isAncestor_entry {m : BlockMap} {a b : CBlockIndex}
    (hwf : WFb m = true) (ha : Entry m a) (h : IsAncestor m a b) : Entry m b := by
  induction h with
  | refl => exact ha
  | step a p b hp hprev hfind h ih => exact ih (wf_entry hwf hfind)

theorem isAncestor_height {m : BlockMap} {a b : CBlockIndex}
    (hwf : WFb m = true) (ha : Entry m a) (h : IsAncestor m a b) :
    b.nHeight ≤ a.nHeight := by
  induction h with
  | refl => exact le_rfl
  | step a p b hp hprev hfind h ih =>
    obtain ⟨p2, hp2, hh⟩ := wf_prev hwf ha hprev
    rw [hfind] at hp2
    obtain rfl : p = p2 := Option.some_inj.mp hp2
    have := ih (wf_entry hwf hfind)
    omega

theorem isAncestor_height_lt {m : BlockMap} {a b : CBlockIndex}
    (hwf : WFb m = true) (ha : Entry m a) (h : IsAncestor m a b) (hne : a ≠ b) :
    b.nHeight < a.nHeight := by
  cases h with
  | refl => exact absurd rfl hne
  | step a p b hp hprev hfind h =>
    obtain ⟨p2, hp2, hh⟩ := wf_prev hwf ha hprev
    rw [hfind] at hp2
    obtain rfl : p = p2 := Option.some_inj.mp hp2
    have := isAncestor_height hwf (wf_entry hwf hfind) h
    omega

theorem isAncestor_eq_of_height {m : BlockMap} {a b : CBlockIndex}
    (hwf : WFb m = true) (ha : Entry m a) (h : IsAncestor m a b)
    (hh : b.nHeight = a.nHeight) : a = b := by
  by_contra hne
  have := isAncestor_height_lt hwf ha h hne
  omega

/-- Any successful `traceBack` result is an ancestor of the start block. -/
theorem traceBack_isAncestor {m : BlockMap} {t : Nat} :
    ∀ {fuel : Nat} {a c : CBlockIndex}, traceBack m t fuel a = some c →
      IsAncestor m a c := by
  intro fuel
  induction fuel with
  | zero =>
    intro a c h
    unfold traceBack at h
    by_cases hgt : a.nHeight > t
    · rw [if_pos hgt] at h; cases h
    · rw [if_neg hgt] at h
      obtain rfl := Option.some_inj.mp h
      exact .refl a
  | succ fuel ih =>
    intro a c h
    unfold traceBack at h
    by_cases hgt : a.nHeight > t
    · rw [if_pos hgt] at h
      cases hprev : a.pprev with
      | none =>
        simp only [hprev] at h
        exact Option.noConfusion h
      | some hp =>
        cases hfind : mfind m hp with
        | none =>
          simp only [hprev, hfind] at h
          exact Option.noConfusion h
        | some p =>
          simp only [hprev, hfind] at h
          exact .step a p c hp hprev hfind (ih h)
    · rw [if_neg hgt] at h
      obtain rfl := Option.some_inj.mp h
      exact .refl a

/-- On a well-formed tree, `traceBack` to an ancestor's height finds exactly
that ancestor, given fuel at least the start height. -/
theorem isAncestor_traceBack {m : BlockMap} {a b : CBlockIndex}
    (hwf : WFb m = true) (ha : Entry m a) (h : IsAncestor m a b) :
    ∀ fuel, a.nHeight ≤ fuel → traceBack m b.nHeight fuel a = some b := by
  induction h with
  | refl a =>
    intro fuel hfuel
    cases fuel with
    | zero => unfold traceBack; rw [if_neg (lt_irrefl a.nHeight)]
    | succ fuel => unfold traceBack; rw [if_neg (lt_irrefl a.nHeight)]
  | step a p b hp hprev hfind h ih =>
    intro fuel hfuel
    obtain ⟨p2, hp2, hh⟩ := wf_prev hwf ha hprev
    rw [hfind] at hp2
    obtain rfl : p = p2 := Option.some_inj.mp hp2
    have hpe : Entry m p := wf_entry hwf hfind
    have hbp : b.nHeight ≤ p.nHeight := isAncestor_height hwf hpe h
    have hgt : a.nHeight > b.nHeight := by omega
    cases fuel with
    | zero => omega
    | succ fuel =>
      unfold traceBack
      rw [if_pos hgt]
      simp only [hprev, hfind]
      exact ih hpe fuel (by omega)

/-- Totality of `traceBack` on a well-formed tree: from any entry, the walk
to any target height at or below the start height succeeds and stops exactly
at that height. -/
theorem traceBack_total {m : BlockMap} (hwf : WFb m = true) {t : Nat} :
    ∀ (fuel : Nat) (a : CBlockIndex), Entry m a → t ≤ a.nHeight →
      a.nHeight ≤ fuel →
      ∃ c, traceBack m t fuel a = some c ∧ Entry m c ∧ c.nHeight = t ∧
        IsAncestor m a c := by
  intro fuel
  induction fuel with
  | zero =>
    intro a ha ht hfuel
    have h0 : a.nHeight = 0 := by omega
    have ht0 : t = 0 := by omega
    refine ⟨a, ?_, ha, by omega, .refl a⟩
    unfold traceBack
    rw [if_neg (by omega)]
  | succ fuel ih =>
    intro a ha ht hfuel
    by_cases hgt : a.nHeight > t
    · cases hprev : a.pprev with
      | none =>
        have := wf_root hwf ha hprev
        omega
      | some hp =>
        obtain ⟨p, hpfind, hh⟩ := wf_prev hwf ha hprev
        have hpe : Entry m p := wf_entry hwf hpfind
        obtain ⟨c, hc, hce, hch, hca⟩ := ih p hpe (by omega) (by omega)
        refine ⟨c, ?_, hce, hch, .step a p c hp hprev hpfind hca⟩
        unfold traceBack
        rw [if_pos hgt]
        simp only [hprev, hpfind]
        exact hc
    · have : a.nHeight = t := by omega
      refine ⟨a, ?_, ha, this, .refl a⟩
      unfold traceBack
      rw [if_neg hgt]

/-- Negative ancestor test usable by `decide` at concrete inputs. -/
theorem not_isAncestor_of_traceBack {m : BlockMap} {a b : CBlockIndex}
    (hwf : WFb m = true) (ha : Entry m a)
    (h : traceBack m b.nHeight a.nHeight a ≠ some b) : ¬ IsAncestor m a b :=
  fun hanc => h (isAncestor_traceBack hwf ha hanc a.nHeight le_rfl)

/-- `traceBack` from a block to its own height is immediate. -/
theorem traceBack_self (m : BlockMap) (fuel : Nat) (b : CBlockIndex) :
    traceBack m b.nHeight fuel b = some b := by
  cases fuel with
  | zero => unfold traceBack; rw [if_neg (lt_irrefl b.nHeight)]
  | succ fuel => unfold traceBack; rw [if_neg (lt_irrefl b.nHeight)]

/-! ## Claim theorems: the consistency validator -/

/-- Shared core of the divergent-branch case: when neither of two known
blocks is an ancestor of the other, validating the second against a state
whose current checkpoint is the first yields the conflict return, recording
the candidate as `hashInvalidCheckpoint`. -/
theorem validate_conflict_of_divergent {m : BlockMap} {A B : CBlockIndex}
    {st : CheckpointState}
    (hwf : WFb m = true) (hA : Entry m A) (hB : Entry m B)
    (hAB : ¬ IsAncestor m A B) (hBA : ¬ IsAncestor m B A)
    (hcur : st.hashSyncCheckpoint = A.hash) :
    ValidateSyncCheckpoint m st B.hash =
      (.conflict, { st with hashInvalidCheckpoint := B.hash }) := by
  have hA' : mfind m A.hash = some A := hA
  have hB' : mfind m B.hash = some B := hB
  unfold ValidateSyncCheckpoint
  rw [hcur]
  simp only [hA', hB']
  rcases le_or_lt B.nHeight A.nHeight with hle | hlt
  · rw [if_pos hle]
    obtain ⟨c, hc, hce, hch, hca⟩ :=
      traceBack_total hwf (t := B.nHeight) A.nHeight A hA hle le_rfl
    simp only [hc]
    have hne : c.hash ≠ B.hash := by
      intro heq
      exact hAB (by rwa [entry_hash_inj hce hB heq] at hca)
    rw [if_pos hne]
  · rw [if_neg (not_le.mpr hlt)]
    obtain ⟨c, hc, hce, hch, hca⟩ :=
      traceBack_total hwf (t := A.nHeight) B.nHeight B hB (le_of_lt hlt) le_rfl
    simp only [hc]
    have hne : c.hash ≠ A.hash := by
      intro heq
      exact hBA (by rwa [entry_hash_inj hce hA heq] at hca)
    rw [if_pos hne]

/-- Claim C1: for every pair of known blocks where `B` is a strict ancestor
of `A`, validating candidate `B` against current checkpoint `A` returns the
ignore-older outcome (`false`, state untouched, no invalid hash recorded),
and validating candidate `A` against current checkpoint `B` returns the
accepting outcome (`true`). -/
theorem claimC1_validate_ancestor {m : BlockMap} {A B : CBlockIndex}
    {stA stB : CheckpointState}
    (hwf : WFb m = true) (hA : Entry m A) (hB : Entry m B)
    (hanc : IsAncestor m A B) (hne : A ≠ B)
    (hcurA : stA.hashSyncCheckpoint = A.hash)
    (hcurB : stB.hashSyncCheckpoint = B.hash) :
    ValidateSyncCheckpoint m stA B.hash = (.ignoreOlder, stA) ∧
    ValidateResult.toBool .ignoreOlder = false ∧
    ValidateSyncCheckpoint m stB A.hash = (.accept, stB) ∧
    ValidateResult.toBool .accept = true := by
  have hA' : mfind m A.hash = some A := hA
  have hB' : mfind m B.hash = some B := hB
  have hlt : B.nHeight < A.nHeight := isAncestor_height_lt hwf hA hanc hne
  have htr : traceBack m B.nHeight A.nHeight A = some B :=
    isAncestor_traceBack hwf hA hanc A.nHeight le_rfl
  refine ⟨?_, rfl, ?_, rfl⟩
  · unfold ValidateSyncCheckpoint
    rw [hcurA]
    simp only [hA', hB']
    rw [if_pos (le_of_lt hlt)]
    simp only [htr]
    rw [if_neg (fun hcc => hcc rfl)]
  · unfold ValidateSyncCheckpoint
    rw [hcurB]
    simp only [hA', hB']
    rw [if_neg (not_le.mpr hlt)]
    simp only [htr]
    rw [if_neg (fun hcc => hcc rfl)]

/-- Claim C2: for every pair of known blocks on divergent branches (neither
an ancestor of the other), validation returns the conflict outcome (`false`)
in both directions, and in both directions records the candidate that was
passed in as `hashInvalidCheckpoint`. -/
theorem claimC2_validate_divergent {m : BlockMap} {A B : CBlockIndex}
    {stA stB : CheckpointState}
    (hwf : WFb m = true) (hA : Entry m A) (hB : Entry m B)
    (hAB : ¬ IsAncestor m A B) (hBA : ¬ IsAncestor m B A)
    (hcurA : stA.hashSyncCheckpoint = A.hash)
    (hcurB : stB.hashSyncCheckpoint = B.hash) :
    ValidateSyncCheckpoint m stA B.hash =
      (.conflict, { stA with hashInvalidCheckpoint := B.hash }) ∧
    ValidateSyncCheckpoint m stB A.hash =
      (.conflict, { stB with hashInvalidCheckpoint := A.hash }) ∧
    ValidateResult.toBool .conflict = false :=
  ⟨validate_conflict_of_divergent hwf hA hB hAB hBA hcurA,
   validate_conflict_of_divergent hwf hB hA hBA hAB hcurB, rfl⟩

/-- A concrete block tree for witnesses: a chain `1 ← 2 ← 3` (heights
`0,1,2`) with a divergent sibling `4` at height `1`. -/
def wmap1 : BlockMap :=
  [(1, ⟨1, 0, none⟩), (2, ⟨2, 1, some 1⟩), (3, ⟨3, 2, some 2⟩),
   (4, ⟨4, 1, some 1⟩)]

/-- Witness state with current checkpoint `3`. -/
def wst3 : CheckpointState := ⟨3, 0, none, none, 0, ""⟩

/-- Witness state with current checkpoint `1`. -/
def wst1 : CheckpointState := ⟨1, 0, none, none, 0, ""⟩

/-- Witness state with current checkpoint `2`. -/
def wst2 : CheckpointState := ⟨2, 0, none, none, 0, ""⟩

/-- Witness state with current checkpoint `4`. -/
def wst4 : CheckpointState := ⟨4, 0, none, none, 0, ""⟩

theorem claimC1_witness :
    ValidateSyncCheckpoint wmap1 wst3 1 = (.ignoreOlder, wst3) ∧
    ValidateSyncCheckpoint wmap1 wst1 3 = (.accept, wst1) := by
  have hanc : IsAncestor wmap1 ⟨3, 2, some 2⟩ ⟨1, 0, none⟩ :=
    .step _ ⟨2, 1, some 1⟩ _ 2 rfl rfl
      (.step _ ⟨1, 0, none⟩ _ 1 rfl rfl (.refl _))
  have h := @claimC1_validate_ancestor wmap1 ⟨3, 2, some 2⟩ ⟨1, 0, none⟩
    wst3 wst1 (by decide) (by decide) (by decide) hanc (by decide) rfl rfl
  exact ⟨h.1, h.2.2.1⟩

theorem claimC2_witness :
    ValidateSyncCheckpoint wmap1 wst2 4 =
      (.conflict, { wst2 with hashInvalidCheckpoint := 4 }) ∧
    ValidateSyncCheckpoint wmap1 wst4 2 =
      (.conflict, { wst4 with hashInvalidCheckpoint := 2 }) := by
  have h24 : ¬ IsAncestor wmap1 ⟨2, 1, some 1⟩ ⟨4, 1, some 1⟩ :=
    not_isAncestor_of_traceBack (by decide) (by decide) (by decide)
  have h42 : ¬ IsAncestor wmap1 ⟨4, 1, some 1⟩ ⟨2, 1, some 1⟩ :=
    not_isAncestor_of_traceBack (by decide) (by decide) (by decide)
  have h := @claimC2_validate_divergent wmap1 ⟨2, 1, some 1⟩ ⟨4, 1, some 1⟩
    wst2 wst4 (by decide) (by decide) (by decide) h24 h42 rfl rfl
  exact ⟨h.1, h.2.1⟩

/-- Claim C3: processing the identical already-accepted checkpoint message a
second time is idempotent — the message's hash is the current
sync-checkpoint and its block is known, so `ProcessSyncCheckpoint` returns
`false` through the validation path (the equal-height trace yields the
ignore-older outcome, not the accepting one) and leaves every field of the
checkpoint state, and the database, unchanged. -/
theorem claimC3_process_idempotent {m : BlockMap} {chain : List Hash}
    {args : Args} {db : TxDB} {st : CheckpointState} {msg : CSyncCheckpoint}
    {pfrom : Option Peer} {b : CBlockIndex}
    (hwf : WFb m = true) (hsig : msg.sigValid = true)
    (hcur : st.hashSyncCheckpoint = msg.hashCheckpoint)
    (hb : mfind m msg.hashCheckpoint = some b) :
    ProcessSyncCheckpoint m chain args db st msg pfrom =
      ⟨.validateReject .ignoreOlder, st, db, []⟩ ∧
    ProcessResult.toBool (.validateReject .ignoreOlder) = false := by
  have hval : ValidateSyncCheckpoint m st msg.hashCheckpoint =
      (.ignoreOlder, st) := by
    unfold ValidateSyncCheckpoint
    rw [hcur]
    simp only [hb]
    rw [if_pos le_rfl]
    simp only [traceBack_self]
    rw [if_neg (by simp [wf_hash hwf hb])]
  refine ⟨?_, rfl⟩
  unfold ProcessSyncCheckpoint
  rw [if_neg (by simp [hsig])]
  simp only [hb, hval]
  rw [if_neg (by decide)]

theorem claimC3_witness :
    ProcessSyncCheckpoint wmap1 [] ⟨none, false⟩ ⟨none, true, true⟩ wst1
        ⟨1, true⟩ none =
      ⟨.validateReject .ignoreOlder, wst1, ⟨none, true, true⟩, []⟩ :=
  (claimC3_process_idempotent (b := ⟨1, 0, none⟩)
    (by decide) rfl rfl (by decide)).1

/-! ## Claim C4: automatic checkpoint selection -/

/-- Behaviour of the backward walk of `AutoSelectSyncCheckpoint` on a
well-formed tree: for a nonnegative depth not exceeding the tip height, the
walk from any entry at or above the target height stops exactly at the
ancestor at height `H - depth`. -/
theorem autoSelectLoop_spec {m : BlockMap} (hwf : WFb m = true)
    {H : Nat} {D : Int} (hD : 0 ≤ D) (hDH : D.toNat ≤ H) :
    ∀ (fuel : Nat) (a : CBlockIndex), Entry m a →
      H - D.toNat ≤ a.nHeight → a.nHeight ≤ fuel →
      ∃ c, autoSelectLoop m H D fuel a = c ∧ Entry m c ∧
        c.nHeight = H - D.toNat ∧ IsAncestor m a c := by
  intro fuel
  induction fuel with
  | zero =>
    intro a ha ht hfuel
    exact ⟨a, rfl, ha, by omega, .refl a⟩
  | succ fuel ih =>
    intro a ha ht hfuel
    cases hprev : a.pprev with
    | none =>
      have h0 := wf_root hwf ha hprev
      refine ⟨a, ?_, ha, by omega, .refl a⟩
      unfold autoSelectLoop
      simp only [hprev]
    | some hp =>
      by_cases hcond : (a.nHeight : Int) + D > (H : Int)
      · obtain ⟨p, hpfind, hh⟩ := wf_prev hwf ha hprev
        have hpe : Entry m p := wf_entry hwf hpfind
        have hgt : H - D.toNat < a.nHeight := by omega
        obtain ⟨c, hc, hce, hch, hca⟩ := ih p hpe (by omega) (by omega)
        refine ⟨c, ?_, hce, hch, .step a p c hp hprev hpfind hca⟩
        unfold autoSelectLoop
        simp only [hprev, hpfind]
        rw [if_pos hcond]
        exact hc
      · have heq : a.nHeight = H - D.toNat := by omega
        refine ⟨a, ?_, ha, heq, .refl a⟩
        unfold autoSelectLoop
        simp only [hprev]
        rw [if_neg hcond]

/-- Claim C4: with a nonnegative configured depth `D` at most the tip height
`H`, `AutoSelectSyncCheckpoint` returns the hash of the ancestor of the tip
at height `H - D` — the greatest height `≤ H - D` reachable by walking
parent links — and for `D = 0` that ancestor is the tip itself. -/
theorem claimC4_autoselect {m : BlockMap} {tip : CBlockIndex} {D : Int}
    (hwf : WFb m = true) (htip : Entry m tip)
    (hD : 0 ≤ D) (hDH : D.toNat ≤ tip.nHeight) :
    ∃ c, Entry m c ∧ IsAncestor m tip c ∧
      c.nHeight = tip.nHeight - D.toNat ∧
      AutoSelectSyncCheckpoint m tip D = c.hash ∧
      (D = 0 → c = tip) ∧
      (∀ c2, IsAncestor m tip c2 → c2.nHeight ≤ tip.nHeight - D.toNat →
        c2.nHeight ≤ c.nHeight) := by
  obtain ⟨c, hc, hce, hch, hca⟩ :=
    autoSelectLoop_spec hwf hD hDH tip.nHeight tip htip (by omega) le_rfl
  refine ⟨c, hce, hca, hch, ?_, ?_, ?_⟩
  · unfold AutoSelectSyncCheckpoint
    rw [hc]
  · intro hD0
    subst hD0
    exact (isAncestor_eq_of_height hwf htip hca (by omega)).symm
  · intro c2 h2 hle
    omega

/-- The spec's concrete example chain: heights `0..100`, block at height `i`
has hash `i + 1` (hash `0` is reserved as the null hash). -/
def chain100 : BlockMap :=
  (List.range 101).map fun i => (i + 1, ⟨i + 1, i, if i = 0 then none else some i⟩)

theorem claimC4_witness :
    AutoSelectSyncCheckpoint chain100 ⟨101, 100, some 100⟩ 10 = 91 ∧
    AutoSelectSyncCheckpoint wmap1 ⟨3, 2, some 2⟩ 0 = 3 ∧
    AutoSelectSyncCheckpoint wmap1 ⟨3, 2, some 2⟩ 1 = 2 ∧
    AutoSelectSyncCheckpoint wmap1 ⟨3, 2, some 2⟩ 2 = 1 ∧
    ∃ c, IsAncestor wmap1 ⟨3, 2, some 2⟩ c ∧ c.nHeight = 1 ∧
      AutoSelectSyncCheckpoint wmap1 ⟨3, 2, some 2⟩ 1 = c.hash := by
  refine ⟨by decide, by decide, by decide, by decide, ?_⟩
  obtain ⟨c, hce, hca, hch, heq, h0, hmax⟩ :=
    @claimC4_autoselect wmap1 ⟨3, 2, some 2⟩ 1
      (by decide) (by decide) (by decide) (by decide)
  exact ⟨c, hca, by simpa using hch, heq⟩

/-! ## Claim C5: enforcement policy -/

/-- Claim C5 (code bug): with no `-enforcecheckpoint` option set and no
`-checkpointkey` configured, `IsSyncCheckpointEnforced` returns `true`, not
`false` — the `GetBoolArg` default in the source is `true`, contradicting
the claim and the source file's own header comment, which says users must
explicitly consent to enforcement.  The remaining conjuncts record the
behaviour on the explicit settings. -/
theorem claimC5_enforced_default :
    IsSyncCheckpointEnforced ⟨none, false⟩ = true ∧
    IsSyncCheckpointEnforced ⟨some true, false⟩ = true ∧
    IsSyncCheckpointEnforced ⟨some false, false⟩ = false ∧
    IsSyncCheckpointEnforced ⟨some false, true⟩ = true := by
  decide

/-! ## Claim C6: persistence atomicity -/

/-- `ValidateSyncCheckpoint` either leaves the state unchanged or only
records the candidate as `hashInvalidCheckpoint`. -/
theorem validate_snd (m : BlockMap) (st : CheckpointState) (h : Hash) :
    (ValidateSyncCheckpoint m st h).2 = st ∨
    (ValidateSyncCheckpoint m st h).2 =
      { st with hashInvalidCheckpoint := h } := by
  unfold ValidateSyncCheckpoint
  repeat' split
  all_goals first
  | exact Or.inl rfl
  | exact Or.inr rfl

/-- All checkpoint-state fields except `hashInvalidCheckpoint` are preserved
by `ValidateSyncCheckpoint`. -/
theorem validate_preserves (m : BlockMap) (st : CheckpointState) (h : Hash) :
    (ValidateSyncCheckpoint m st h).2.hashSyncCheckpoint = st.hashSyncCheckpoint ∧
    (ValidateSyncCheckpoint m st h).2.checkpointMessage = st.checkpointMessage ∧
    (ValidateSyncCheckpoint m st h).2.hashPendingCheckpoint = st.hashPendingCheckpoint ∧
    (ValidateSyncCheckpoint m st h).2.checkpointMessagePending = st.checkpointMessagePending := by
  rcases validate_snd m st h with h1 | h1 <;> rw [h1] <;> exact ⟨rfl, rfl, rfl, rfl⟩

/-- On a failing write or commit, `WriteSyncCheckpoint` returns `false` with
the in-memory state untouched. -/
theorem write_fail (st : CheckpointState) (h : Hash) {db : TxDB}
    (hfail : db.writeOk = false ∨ db.syncOk = false) :
    ∃ db1, WriteSyncCheckpoint db st h = (false, db1, st) := by
  unfold WriteSyncCheckpoint
  rcases hfail with hf | hf
  · rw [if_pos hf]
    exact ⟨db, rfl⟩
  · by_cases hw : db.writeOk = false
    · rw [if_pos hw]
      exact ⟨db, rfl⟩
    · rw [if_neg hw]
      simp only [hf]
      exact ⟨_, rfl⟩

/-- Claim C6: whenever the durable write or its commit fails, the enclosing
operation fails and neither the in-memory current checkpoint hash nor the
current message is changed; `hashSyncCheckpoint` is assigned by
`WriteSyncCheckpoint` only after both the write and the commit succeeded. -/
theorem claimC6_persistence_atomicity (m : BlockMap) (chain : List Hash)
    (args : Args) (db : TxDB) (st : CheckpointState) (msg : CSyncCheckpoint)
    (pfrom : Option Peer) (h : Hash)
    (hfail : db.writeOk = false ∨ db.syncOk = false) :
    ((WriteSyncCheckpoint db st h).1 = false ∧
     (WriteSyncCheckpoint db st h).2.2 = st) ∧
    ((ProcessSyncCheckpoint m chain args db st msg pfrom).result.toBool = false ∧
     (ProcessSyncCheckpoint m chain args db st msg pfrom).st.hashSyncCheckpoint =
       st.hashSyncCheckpoint ∧
     (ProcessSyncCheckpoint m chain args db st msg pfrom).st.checkpointMessage =
       st.checkpointMessage) ∧
    ((AcceptPendingSyncCheckpoint m chain args db st).1 = false ∧
     (AcceptPendingSyncCheckpoint m chain args db st).2.1.hashSyncCheckpoint =
       st.hashSyncCheckpoint ∧
     (AcceptPendingSyncCheckpoint m chain args db st).2.1.checkpointMessage =
       st.checkpointMessage) := by
  refine ⟨?_, ?_, ?_⟩
  · obtain ⟨db1, hw⟩ := write_fail st h hfail
    rw [hw]
    exact ⟨rfl, rfl⟩
  · unfold ProcessSyncCheckpoint
    by_cases hs : msg.sigValid = false
    · rw [if_pos hs]
      exact ⟨rfl, rfl, rfl⟩
    · rw [if_neg hs]
      cases hfind : mfind m msg.hashCheckpoint with
      | none =>
        simp only [hfind]
        exact ⟨rfl, trivial, trivial⟩
      | some b =>
        simp only [hfind]
        rcases hv : ValidateSyncCheckpoint m st msg.hashCheckpoint with ⟨r, st1⟩
        have hpres := validate_preserves m st msg.hashCheckpoint
        rw [hv] at hpres
        simp only [hv]
        by_cases hr : r = ValidateResult.accept
        · rw [if_pos hr]
          obtain ⟨db1, hw⟩ := write_fail st1 msg.hashCheckpoint hfail
          simp only [hw]
          exact ⟨rfl, hpres.1, hpres.2.1⟩
        · rw [if_neg hr]
          exact ⟨rfl, hpres.1, hpres.2.1⟩
  · unfold AcceptPendingSyncCheckpoint
    by_cases hp : st.hashPendingCheckpoint ≠ 0 ∧
        (mfind m st.hashPendingCheckpoint).isSome = true
    · rw [if_pos hp]
      rcases hv : ValidateSyncCheckpoint m st st.hashPendingCheckpoint with ⟨r, st1⟩
      have hpres := validate_preserves m st st.hashPendingCheckpoint
      rw [hv] at hpres
      simp only [hv]
      by_cases hr : r = ValidateResult.accept
      · rw [if_pos hr]
        obtain ⟨db1, hw⟩ := write_fail st1 st.hashPendingCheckpoint hfail
        simp only [hw]
        exact ⟨trivial, hpres.1, hpres.2.1⟩
      · rw [if_neg hr]
        exact ⟨rfl, hpres.1, hpres.2.1⟩
    · rw [if_neg hp]
      exact ⟨rfl, rfl, rfl⟩

theorem claimC6_witness :
    ((WriteSyncCheckpoint ⟨none, false, true⟩ wst1 3).1 = false ∧
     (WriteSyncCheckpoint ⟨none, false, true⟩ wst1 3).2.2 = wst1) ∧
    ((ProcessSyncCheckpoint wmap1 [] ⟨none, false⟩ ⟨none, false, true⟩ wst1
        ⟨3, true⟩ none).result.toBool = false ∧
     (ProcessSyncCheckpoint wmap1 [] ⟨none, false⟩ ⟨none, false, true⟩ wst1
        ⟨3, true⟩ none).st.hashSyncCheckpoint = wst1.hashSyncCheckpoint ∧
     (ProcessSyncCheckpoint wmap1 [] ⟨none, false⟩ ⟨none, false, true⟩ wst1
        ⟨3, true⟩ none).st.checkpointMessage = wst1.checkpointMessage) ∧
    ((AcceptPendingSyncCheckpoint wmap1 [] ⟨none, false⟩ ⟨none, false, true⟩
        wst1).1 = false ∧
     (AcceptPendingSyncCheckpoint wmap1 [] ⟨none, false⟩ ⟨none, false, true⟩
        wst1).2.1.hashSyncCheckpoint = wst1.hashSyncCheckpoint ∧
     (AcceptPendingSyncCheckpoint wmap1 [] ⟨none, false⟩ ⟨none, false, true⟩
        wst1).2.1.checkpointMessage = wst1.checkpointMessage) :=
  claimC6_persistence_atomicity wmap1 [] ⟨none, false⟩ ⟨none, false, true⟩
    wst1 ⟨3, true⟩ none 3 (Or.inl rfl)

/-! ## Claim C7: pending path and the missing-block request -/

/-- Claim C7 counterexample: a signature-valid message for an unknown block,
arriving from a concrete source peer, is stored as pending — but no block
request to that peer is issued by `ProcessSyncCheckpoint` (the request code
in its pending branch is commented out in the source). -/
theorem claimC7_counterexample :
    (ProcessSyncCheckpoint [] [] ⟨none, false⟩ ⟨none, true, true⟩ wst1 ⟨7, true⟩
        (some 1)).result = .pendingStored ∧
    (ProcessSyncCheckpoint [] [] ⟨none, false⟩ ⟨none, true, true⟩ wst1 ⟨7, true⟩
        (some 1)).st.hashPendingCheckpoint = 7 ∧
    ((1, 7) ∉ (ProcessSyncCheckpoint [] [] ⟨none, false⟩ ⟨none, true, true⟩ wst1
        ⟨7, true⟩ (some 1)).requests) ∧
    (ProcessSyncCheckpoint [] [] ⟨none, false⟩ ⟨none, true, true⟩ wst1 ⟨7, true⟩
        (some 1)).requests = [] := by
  decide

/-- Claim C7 as amended: for a signature-valid message whose block is
unknown, `ProcessSyncCheckpoint` stores the message as pending (sets
`hashPendingCheckpoint` and `checkpointMessagePending`) and returns the
non-accepted pending outcome, but issues no network request itself; the
request for the missing block is issued by the separate
`AskForPendingSyncCheckpoint` helper when it is invoked with a peer. -/
theorem claimC7_pending_no_request {m : BlockMap} {chain : List Hash}
    {args : Args} {db : TxDB} {st : CheckpointState} {msg : CSyncCheckpoint}
    {pfrom : Option Peer}
    (hsig : msg.sigValid = true) (hunk : mfind m msg.hashCheckpoint = none)
    (hnz : msg.hashCheckpoint ≠ 0) :
    (ProcessSyncCheckpoint m chain args db st msg pfrom).result =
      .pendingStored ∧
    ProcessResult.toBool .pendingStored = false ∧
    (ProcessSyncCheckpoint m chain args db st msg pfrom).st.hashPendingCheckpoint =
      msg.hashCheckpoint ∧
    (ProcessSyncCheckpoint m chain args db st msg pfrom).st.checkpointMessagePending =
      some msg ∧
    (ProcessSyncCheckpoint m chain args db st msg pfrom).requests = [] ∧
    (ProcessSyncCheckpoint m chain args db st msg pfrom).db = db ∧
    (∀ p : Peer, AskForPendingSyncCheckpoint m
      (ProcessSyncCheckpoint m chain args db st msg pfrom).st (some p) =
        [(p, msg.hashCheckpoint)]) := by
  have hpr : ProcessSyncCheckpoint m chain args db st msg pfrom =
      ⟨.pendingStored,
        { st with hashPendingCheckpoint := msg.hashCheckpoint,
                  checkpointMessagePending := some msg }, db, []⟩ := by
    unfold ProcessSyncCheckpoint
    rw [if_neg (by simp [hsig])]
    simp only [hunk]
  rw [hpr]
  refine ⟨rfl, rfl, rfl, rfl, rfl, rfl, ?_⟩
  intro p
  simp [AskForPendingSyncCheckpoint, hnz, hunk]

theorem claimC7_witness :
    (ProcessSyncCheckpoint [] [] ⟨none, false⟩ ⟨none, true, true⟩ wst1 ⟨9, true⟩
        (some 2)).result = .pendingStored ∧
    (ProcessSyncCheckpoint [] [] ⟨none, false⟩ ⟨none, true, true⟩ wst1 ⟨9, true⟩
        (some 2)).requests = [] ∧
    AskForPendingSyncCheckpoint []
      (ProcessSyncCheckpoint [] [] ⟨none, false⟩ ⟨none, true, true⟩ wst1 ⟨9, true⟩
        (some 2)).st (some 2) = [(2, 9)] := by
  have h := @claimC7_pending_no_request [] [] ⟨none, false⟩
    ⟨none, true, true⟩ wst1 ⟨9, true⟩ (some 2) rfl rfl (by decide)
  exact ⟨h.1, h.2.2.2.2.1, h.2.2.2.2.2.2 2⟩

/-! ## Claim C8: the master relays only what it accepts -/

/-- Claim C8: `SendSyncCheckpoint` relays the signed checkpoint exactly when
every key step succeeded and the local `ProcessSyncCheckpoint` acceptance
path returned `true`; on key failure or processing failure it returns
`false` with no relay. -/
theorem claimC8_send_relay_gating (m : BlockMap) (chain : List Hash)
    (args : Args) (db : TxDB) (st : CheckpointState) (key : MasterKey)
    (h : Hash) :
    (SendSyncCheckpoint m chain args db st key h).relayed =
      (key.privKeySet && key.decodeOk && key.keyValid && key.signOk &&
       (ProcessSyncCheckpoint m chain args db st ⟨h, key.producesValidSig⟩
          none).result.toBool) ∧
    (SendSyncCheckpoint m chain args db st key h).ok =
      (SendSyncCheckpoint m chain args db st key h).relayed := by
  unfold SendSyncCheckpoint
  by_cases hk1 : key.privKeySet = false
  · rw [if_pos hk1]
    simp [hk1]
  rw [if_neg hk1]
  simp only [Bool.not_eq_false] at hk1
  by_cases hk2 : key.decodeOk = false
  · rw [if_pos hk2]
    simp [hk1, hk2]
  rw [if_neg hk2]
  simp only [Bool.not_eq_false] at hk2
  by_cases hk3 : key.keyValid = false
  · rw [if_pos hk3]
    simp [hk1, hk2, hk3]
  rw [if_neg hk3]
  simp only [Bool.not_eq_false] at hk3
  by_cases hk4 : key.signOk = false
  · rw [if_pos hk4]
    simp [hk1, hk2, hk3, hk4]
  rw [if_neg hk4]
  simp only [Bool.not_eq_false] at hk4
  by_cases hp : (ProcessSyncCheckpoint m chain args db st
      ⟨h, key.producesValidSig⟩ none).result.toBool = false
  · simp [hk1, hk2, hk3, hk4, hp]
  · simp only [Bool.not_eq_false] at hp
    simp [hk1, hk2, hk3, hk4, hp]

/-! ## Claim C9: reset to the hardened checkpoint -/

/-- When both the write and the commit succeed, `WriteSyncCheckpoint` stores
the hash durably and assigns the in-memory `hashSyncCheckpoint`. -/
theorem write_ok (st : CheckpointState) (h : Hash) {db : TxDB}
    (hw : db.writeOk = true) (hs : db.syncOk = true) :
    WriteSyncCheckpoint db st h =
      (true, { db with syncCheckpoint := some h },
       { st with hashSyncCheckpoint := h }) := by
  simp [WriteSyncCheckpoint, hw, hs]

/-- A `true` return from `WriteSyncCheckpoint` means both the write and the
commit succeeded. -/
theorem write_true_flags {db : TxDB} {st : CheckpointState} {h : Hash}
    (hok : (WriteSyncCheckpoint db st h).1 = true) :
    db.writeOk = true ∧ db.syncOk = true := by
  by_cases hw : db.writeOk = false
  · obtain ⟨db1, he⟩ := write_fail st h (Or.inl hw)
    rw [he] at hok
    exact absurd hok (by simp)
  · by_cases hs : db.syncOk = false
    · obtain ⟨db1, he⟩ := write_fail st h (Or.inr hs)
      rw [he] at hok
      exact absurd hok (by simp)
    · exact ⟨Bool.eq_true_of_not_eq_false hw, Bool.eq_true_of_not_eq_false hs⟩

/-- Claim C9: after a successful `ResetSyncCheckpoint`, the persisted record
equals the in-memory current checkpoint hash, that hash equals the latest
hardened checkpoint hash exactly when the hardened block is known and on the
active chain, in every other case the genesis hash is persisted as current
instead, and in the known-but-inactive case the pending state is not
modified.  (The hypotheses that the genesis block is known and on the active
chain are standing invariants of a running node.) -/
theorem claimC9_reset {m : BlockMap} {chain : List Hash} {db : TxDB}
    {st : CheckpointState} {hardened genesis : Hash} {gb : CBlockIndex}
    (hwf : WFb m = true) (hg : mfind m genesis = some gb)
    (hgchain : genesis ∈ chain)
    (hok : (ResetSyncCheckpoint m chain db st hardened genesis).1 = true) :
    (ResetSyncCheckpoint m chain db st hardened genesis).2.2.syncCheckpoint =
      some (ResetSyncCheckpoint m chain db st hardened genesis).2.1.hashSyncCheckpoint ∧
    ((ResetSyncCheckpoint m chain db st hardened genesis).2.1.hashSyncCheckpoint =
        hardened ↔
      ((∃ b, mfind m hardened = some b) ∧ hardened ∈ chain)) ∧
    (∀ b, mfind m hardened = some b → hardened ∉ chain →
      (ResetSyncCheckpoint m chain db st hardened genesis).2.1.hashSyncCheckpoint =
        genesis ∧
      (ResetSyncCheckpoint m chain db st hardened genesis).2.1.hashPendingCheckpoint =
        st.hashPendingCheckpoint ∧
      (ResetSyncCheckpoint m chain db st hardened genesis).2.1.checkpointMessagePending =
        st.checkpointMessagePending) ∧
    (mfind m hardened = none →
      (ResetSyncCheckpoint m chain db st hardened genesis).2.1.hashSyncCheckpoint =
        genesis) := by
  cases hfind : mfind m hardened with
  | some b =>
    have hbh : b.hash = hardened := wf_hash hwf hfind
    unfold ResetSyncCheckpoint at hok ⊢
    simp only [hfind, hbh] at hok ⊢
    by_cases hc : hardened ∈ chain
    · rw [if_pos hc] at hok ⊢
      generalize hwr : WriteSyncCheckpoint db st hardened = w at hok ⊢
      obtain ⟨ok, db1, st1⟩ := w
      cases ok with
      | false => simp at hok
      | true =>
        have hok2 : (WriteSyncCheckpoint db st hardened).1 = true := by
          rw [hwr]
        obtain ⟨hw, hs⟩ := write_true_flags hok2
        have hfull := write_ok st hardened hw hs
        rw [hwr] at hfull
        simp only [Prod.mk.injEq] at hfull
        obtain ⟨-, hdb1, hst1⟩ := hfull
        subst hdb1
        subst hst1
        refine ⟨rfl, ⟨fun _ => ⟨⟨b, rfl⟩, hc⟩, fun _ => rfl⟩, ?_, ?_⟩
        · intro b2 hb2 hc2
          exact absurd hc hc2
        · intro hn
          exact Option.noConfusion hn
    · rw [if_neg hc] at hok ⊢
      generalize hwr : WriteSyncCheckpoint db st genesis = w at hok ⊢
      obtain ⟨ok, db1, st1⟩ := w
      cases ok with
      | false => simp at hok
      | true =>
        have hok2 : (WriteSyncCheckpoint db st genesis).1 = true := by
          rw [hwr]
        obtain ⟨hw, hs⟩ := write_true_flags hok2
        have hfull := write_ok st genesis hw hs
        rw [hwr] at hfull
        simp only [Prod.mk.injEq] at hfull
        obtain ⟨-, hdb1, hst1⟩ := hfull
        subst hdb1
        subst hst1
        have hne : genesis ≠ hardened := fun heq => hc (heq ▸ hgchain)
        refine ⟨rfl, ⟨fun heq => absurd heq hne, fun h2 => absurd h2.2 hc⟩,
          ?_, ?_⟩
        · intro b2 hb2 hc2
          exact ⟨rfl, rfl, rfl⟩
        · intro hn
          exact Option.noConfusion hn
  | none =>
    have hne : hardened ≠ genesis := by
      intro heq
      rw [heq, hg] at hfind
      exact Option.noConfusion hfind
    unfold ResetSyncCheckpoint at hok ⊢
    simp only [hfind] at hok ⊢
    generalize hwr : WriteSyncCheckpoint db
        { st with hashPendingCheckpoint := hardened,
                  checkpointMessagePending := none } genesis = w at hok ⊢
    obtain ⟨ok, db1, st1⟩ := w
    cases ok with
    | false => simp at hok
    | true =>
      have hok2 : (WriteSyncCheckpoint db
          { st with hashPendingCheckpoint := hardened,
                    checkpointMessagePending := none } genesis).1 = true := by
        rw [hwr]
      obtain ⟨hw, hs⟩ := write_true_flags hok2
      have hfull := write_ok
        { st with hashPendingCheckpoint := hardened,
                  checkpointMessagePending := none } genesis hw hs
      rw [hwr] at hfull
      simp only [Prod.mk.injEq] at hfull
      obtain ⟨-, hdb1, hst1⟩ := hfull
      subst hdb1
      subst hst1
      refine ⟨rfl, ⟨fun heq => (hne heq.symm).elim, ?_⟩, ?_, fun _ => rfl⟩
      · rintro ⟨⟨b, hb⟩, -⟩
        exact Option.noConfusion hb
      · intro b2 hb2 hc2
        exact Option.noConfusion hb2

theorem claimC9_witness :
    ((ResetSyncCheckpoint wmap1 [1] ⟨none, true, true⟩ wst1 9 1).1 = true ∧
     (ResetSyncCheckpoint wmap1 [1] ⟨none, true, true⟩ wst1 9 1).2.1.hashSyncCheckpoint
        = 1 ∧
     (ResetSyncCheckpoint wmap1 [1] ⟨none, true, true⟩ wst1 9 1).2.2.syncCheckpoint
        = some 1) ∧
    ¬ (ResetSyncCheckpoint wmap1 [1] ⟨none, true, true⟩ wst1 9 1).2.1.hashSyncCheckpoint
        = 9 := by
  have h := @claimC9_reset wmap1 [1] ⟨none, true, true⟩ wst1 9 1 ⟨1, 0, none⟩
    (by decide) (by decide) (by decide) (by decide)
  refine ⟨⟨by decide, h.2.2.2 (by decide), ?_⟩, ?_⟩
  · rw [h.1, h.2.2.2 (by decide)]
  · intro hfalse
    have := h.2.1.mp hfalse
    exact absurd this.2 (by decide)

/-! ## Claim C10: rejected pending checkpoint is cleared -/

/-- Claim C10: when the pending checkpoint's block is known but the pending
hash fails consistency validation against the current checkpoint,
`AcceptPendingSyncCheckpoint` clears the pending state (null pending hash
and null pending message) and returns `false`, leaving the current
checkpoint hash, the current message and the database unchanged. -/
theorem claimC10_pending_rejected {m : BlockMap} {chain : List Hash}
    {args : Args} {db : TxDB} {st : CheckpointState}
    (hnz : st.hashPendingCheckpoint ≠ 0)
    (hknown : (mfind m st.hashPendingCheckpoint).isSome = true)
    (hrej : (ValidateSyncCheckpoint m st st.hashPendingCheckpoint).1 ≠
      ValidateResult.accept) :
    (AcceptPendingSyncCheckpoint m chain args db st).1 = false ∧
    (AcceptPendingSyncCheckpoint m chain args db st).2.1.hashPendingCheckpoint = 0 ∧
    (AcceptPendingSyncCheckpoint m chain args db st).2.1.checkpointMessagePending = none ∧
    (AcceptPendingSyncCheckpoint m chain args db st).2.1.hashSyncCheckpoint =
      st.hashSyncCheckpoint ∧
    (AcceptPendingSyncCheckpoint m chain args db st).2.1.checkpointMessage =
      st.checkpointMessage ∧
    (AcceptPendingSyncCheckpoint m chain args db st).2.2 = db := by
  unfold AcceptPendingSyncCheckpoint
  rw [if_pos ⟨hnz, hknown⟩]
  rcases hv : ValidateSyncCheckpoint m st st.hashPendingCheckpoint with ⟨r, st1⟩
  have hpres := validate_preserves m st st.hashPendingCheckpoint
  rw [hv] at hpres hrej
  simp only [hv]
  rw [if_neg hrej]
  exact ⟨rfl, rfl, rfl, hpres.1, hpres.2.1, rfl⟩

theorem claimC10_witness :
    (AcceptPendingSyncCheckpoint wmap1 [] ⟨none, true⟩ ⟨none, true, true⟩
      ⟨99, 2, none, some ⟨2, true⟩, 0, ""⟩).1 = false ∧
    (AcceptPendingSyncCheckpoint wmap1 [] ⟨none, true⟩ ⟨none, true, true⟩
      ⟨99, 2, none, some ⟨2, true⟩, 0, ""⟩).2.1.hashPendingCheckpoint = 0 ∧
    (AcceptPendingSyncCheckpoint wmap1 [] ⟨none, true⟩ ⟨none, true, true⟩
      ⟨99, 2, none, some ⟨2, true⟩, 0, ""⟩).2.1.checkpointMessagePending = none ∧
    (AcceptPendingSyncCheckpoint wmap1 [] ⟨none, true⟩ ⟨none, true, true⟩
      ⟨99, 2, none, some ⟨2, true⟩, 0, ""⟩).2.1.hashSyncCheckpoint = 99 := by
  have h := @claimC10_pending_rejected wmap1 [] ⟨none, true⟩
    ⟨none, true, true⟩ ⟨99, 2, none, some ⟨2, true⟩, 0, ""⟩
    (by decide) (by decide) (by decide)
  exact ⟨h.1, h.2.1, h.2.2.1, h.2.2.2.1⟩
